import Mathlib

/-!
Verification of the alphabet-encoding layer of nvbio
(`src/nvbio/strings/alphabet.h`): the `Alphabet` enum, the
`AlphabetTraits` compile-time record, the runtime `bits_per_symbol`
query, and the per-symbol / bulk / lazy codec declared in the header.
The codec bodies live in `nvbio/strings/alphabet_inl.h`, which is not
part of the available sources; those definitions are modelled from the
specification's description and marked as such.
-/

namespace nvbio

/-- The supported sequence alphabet types, embedding the C++ `enum Alphabet`
with members DNA, DNA_N, DNA_IUPAC, PROTEIN. -/
inductive Alphabet where
  | DNA
  | DNA_N
  | DNA_IUPAC
  | PROTEIN
deriving DecidableEq, Repr, Fintype

/-- The numeric value each enumerator carries in the C++ `enum Alphabet`
(`DNA = 0u, DNA_N = 1u, DNA_IUPAC = 2u, PROTEIN = 3u`). -/
def Alphabet.val : Alphabet → Nat
  | .DNA => 0
  | .DNA_N => 1
  | .DNA_IUPAC => 2
  | .PROTEIN => 3

/-- The fields of one `AlphabetTraits` specialization:
`SYMBOL_SIZE` (bits per symbol) and `SYMBOL_COUNT`. -/
structure AlphabetTraits where
  SYMBOL_SIZE : Nat
  SYMBOL_COUNT : Nat
deriving DecidableEq, Repr

/-- The four `AlphabetTraits` template specializations of the header,
as a total map on the enum. -/
def alphabetTraits : Alphabet → AlphabetTraits
  | .DNA => ⟨2, 4⟩
  | .DNA_N => ⟨4, 5⟩
  | .DNA_IUPAC => ⟨4, 16⟩
  | .PROTEIN => ⟨8, 24⟩

/-- The runtime query `bits_per_symbol(const Alphabet alphabet)`.
At runtime the C++ enum argument is an integer, so the embedding takes a
`Nat` and compares it against the enumerator values exactly as the chain
of conditionals in the source does, with the final `8u` fallback. -/
def bits_per_symbol (alphabet : Nat) : Nat :=
  if alphabet = Alphabet.DNA.val then 2
  else if alphabet = Alphabet.DNA_N.val then 4
  else if alphabet = Alphabet.DNA_IUPAC.val then 4
  else if alphabet = Alphabet.PROTEIN.val then 8
  else 8

/-- Modelled from the spec: the per-alphabet character tables used by
`to_char` / `from_char`, whose bodies are in `nvbio/strings/alphabet_inl.h`
and absent from the sources. The spec fixes the tables: DNA is A,C,G,T;
DNA_N adds N; DNA_IUPAC is the 16 IUPAC letters =,A,C,M,G,R,S,V,T,W,Y,H,K,D,B,N
in fixed index order; PROTEIN is the 24 amino-acid letters
A,C,D,E,F,G,H,I,K,L,M,N,O,P,Q,R,S,T,V,W,Y,B,Z,X. -/
def symbol_table : Alphabet → List Char
  | .DNA => ['A', 'C', 'G', 'T']
  | .DNA_N => ['A', 'C', 'G', 'T', 'N']
  | .DNA_IUPAC => ['=', 'A', 'C', 'M', 'G', 'R', 'S', 'V', 'T', 'W', 'Y', 'H', 'K', 'D', 'B', 'N']
  | .PROTEIN => ['A', 'C', 'D', 'E', 'F', 'G', 'H', 'I', 'K', 'L', 'M', 'N', 'O', 'P', 'Q', 'R', 'S', 'T', 'V', 'W', 'Y', 'B', 'Z', 'X']

/-- Modelled from the spec: the per-alphabet sentinel code produced by
`from_char` for characters outside the alphabet (`alphabet_inl.h` is absent
from the sources). The spec leaves the exact sentinel open; following its
suggested convention this model uses the code of N for the DNA-family
alphabets that contain N, the code of X for PROTEIN, and 0 for plain DNA. -/
def sentinel : Alphabet → Nat
  | .DNA => 0
  | .DNA_N => 4
  | .DNA_IUPAC => 15
  | .PROTEIN => 23

/-- Modelled from the spec: `to_char<ALPHABET>(uint8 c)` returns the
alphabet's fixed ASCII character for code `c` by direct table lookup
(`alphabet_inl.h` is absent from the sources; out-of-range codes are an
unchecked precondition there, modelled here by an arbitrary default). -/
def to_char (a : Alphabet) (c : Nat) : Char :=
  (symbol_table a).getD c 'N'

/-- Modelled from the spec: `from_char<ALPHABET>(char c)` maps an ASCII
character back to its symbol code; characters outside the alphabet fold to
the per-alphabet sentinel code (`alphabet_inl.h` is absent from the sources). -/
def from_char (a : Alphabet) (c : Char) : Nat :=
  match (symbol_table a).findIdx? (fun x => x == c) with
  | some i => i
  | none => sentinel a

/-- Modelled from the spec: the bulk encode-range `to_string` writes one
character per input symbol, `to_char` applied element-wise over the range
(`alphabet_inl.h` is absent from the sources). The caller-owned buffers are
modelled by lists. -/
def to_string (a : Alphabet) (symbols : List Nat) : List Char :=
  symbols.map (to_char a)

/-- Modelled from the spec: the bulk decode-range `from_string` over an
explicit character range writes one code per input character, `from_char`
applied element-wise (`alphabet_inl.h` is absent from the sources). -/
def from_string (a : Alphabet) (chars : List Char) : List Nat :=
  chars.map (from_char a)

/-- Modelled from the spec: the null-terminated decode-range overload of
`from_string` reads characters from the start of the buffer and stops at
the first NUL terminator (`alphabet_inl.h` is absent from the sources). -/
def from_string_nullterm (a : Alphabet) (buf : List Char) : List Nat :=
  from_string a (buf.takeWhile (fun c => c != Char.ofNat 0))

/-- Modelled from the spec: the lazy view adaptor `transform_iterator`
from `nvbio/basic/transform_iterator.h` (absent from the sources): it
wraps an underlying position-addressable sequence together with a
per-element functor, and dereferencing it at position `i` applies the
functor to the underlying element at `i`. -/
structure transform_iterator (α β : Type) where
  base : Nat → α
  func : α → β

/-- Modelled from the spec: dereference of a `transform_iterator` at
position `i` evaluates the wrapped functor on the underlying element. -/
def transform_iterator.deref (it : transform_iterator α β) (i : Nat) : β :=
  it.func (it.base i)

/-- Modelled from the spec: `make_transform_iterator` pairs an underlying
sequence with a functor (`nvbio/basic/transform_iterator.h` is absent from
the sources). -/
def make_transform_iterator (it : Nat → α) (f : α → β) : transform_iterator α β :=
  ⟨it, f⟩

/-- `to_char_functor<ALPHABET>`: its `operator()` returns
`to_char<ALPHABET>(c)` (header, lines 156-167). -/
def to_char_functor (a : Alphabet) : Nat → Char :=
  fun c => to_char a c

/-- `from_char_functor<ALPHABET>`: its `operator()` returns
`from_char<ALPHABET>(c)` (header, lines 169-178). -/
def from_char_functor (a : Alphabet) : Char → Nat :=
  fun c => from_char a c

/-- The iterator overload `to_string(Iterator it)` of the header
(lines 182-189): `make_transform_iterator(it, to_char_functor())`. -/
def to_string_iter (a : Alphabet) (it : Nat → Nat) : transform_iterator Nat Char :=
  make_transform_iterator it (to_char_functor a)

/-- The iterator overload `from_string(Iterator it)` of the header
(lines 191-198): `make_transform_iterator(it, from_char_functor())`. -/
def from_string_iter (a : Alphabet) (it : Nat → Char) : transform_iterator Char Nat :=
  make_transform_iterator it (from_char_functor a)

/-- Helper: decoding the character encoded from an in-range code returns
the code, for each alphabet. -/
theorem from_to_char_of_lt (a : Alphabet) (v : Nat)
    (h : v < (alphabetTraits a).SYMBOL_COUNT) :
    from_char a (to_char a v) = v := by
  cases a <;> simp only [alphabetTraits] at h <;> interval_cases v <;> rfl

/-- Helper: `takeWhile` of the negation of a predicate is the prefix up to
the first index where the predicate holds. -/
theorem takeWhile_not_eq_take_findIdx (p : α → Bool) (l : List α) :
    l.takeWhile (fun x => !(p x)) = l.take (l.findIdx p) := by
  induction l with
  | nil => rfl
  | cons x xs ih =>
    by_cases h : p x
    · simp [List.takeWhile_cons, List.findIdx_cons, h]
    · simp [List.takeWhile_cons, List.findIdx_cons, h, ih]

/-- C1: for every alphabet `k` and every symbol code `v` with
`v < SYMBOL_COUNT(k)`, decoding the character produced by encoding `v`
returns `v`: `from_char<k>(to_char<k>(v)) == v`. -/
theorem C1_from_char_to_char_roundtrip (a : Alphabet) (v : Nat)
    (h : v < (alphabetTraits a).SYMBOL_COUNT) :
    from_char a (to_char a v) = v :=
  from_to_char_of_lt a v h

/-- Witness for C1 at alphabet DNA and code 2. -/
theorem C1_witness :
    2 < (alphabetTraits Alphabet.DNA).SYMBOL_COUNT ∧
      from_char Alphabet.DNA (to_char Alphabet.DNA 2) = 2 :=
  ⟨by decide, C1_from_char_to_char_roundtrip Alphabet.DNA 2 (by decide)⟩

/-- C2: the compile-time traits record maps each alphabet to exactly the
pair (SYMBOL_SIZE, SYMBOL_COUNT): DNA to (2,4), DNA_N to (4,5),
DNA_IUPAC to (4,16), PROTEIN to (8,24). -/
theorem C2_alphabetTraits_values :
    alphabetTraits Alphabet.DNA = ⟨2, 4⟩ ∧
      alphabetTraits Alphabet.DNA_N = ⟨4, 5⟩ ∧
      alphabetTraits Alphabet.DNA_IUPAC = ⟨4, 16⟩ ∧
      alphabetTraits Alphabet.PROTEIN = ⟨8, 24⟩ := by
  decide

/-- C3: for each of the four alphabets `k`, the runtime query
`bits_per_symbol` applied to the numeric value of `k` returns the
compile-time trait `AlphabetTraits<k>::SYMBOL_SIZE`. -/
theorem C3_bits_per_symbol_eq_SYMBOL_SIZE :
    ∀ k : Alphabet, bits_per_symbol k.val = (alphabetTraits k).SYMBOL_SIZE := by
  decide

/-- C4: for every input value that is not one of the four recognized
alphabet values, `bits_per_symbol` returns 8 (the final fallback), and
never fails. -/
theorem C4_bits_per_symbol_fallback (v : Nat)
    (h : ∀ k : Alphabet, v ≠ k.val) :
    bits_per_symbol v = 8 := by
  simp only [bits_per_symbol]
  rw [if_neg (h Alphabet.DNA), if_neg (h Alphabet.DNA_N),
    if_neg (h Alphabet.DNA_IUPAC), if_neg (h Alphabet.PROTEIN)]

/-- Witness for C4 at the unrecognized value 7. -/
theorem C4_witness :
    (∀ k : Alphabet, (7 : Nat) ≠ k.val) ∧ bits_per_symbol 7 = 8 :=
  ⟨by decide, C4_bits_per_symbol_fallback 7 (by decide)⟩

/-- C5: the four alphabet identifiers carry the fixed numeric values
DNA = 0, DNA_N = 1, DNA_IUPAC = 2, PROTEIN = 3. -/
theorem C5_enum_values :
    Alphabet.DNA.val = 0 ∧ Alphabet.DNA_N.val = 1 ∧
      Alphabet.DNA_IUPAC.val = 2 ∧ Alphabet.PROTEIN.val = 3 := by
  decide

/-- C6: for every alphabet, encoding a sequence of in-range symbol codes
with the bulk `to_string` and decoding the resulting characters with the
bulk `from_string` reproduces the original symbol sequence, for every
length (including 0). -/
theorem C6_to_string_from_string_roundtrip (a : Alphabet) (symbols : List Nat)
    (h : ∀ v ∈ symbols, v < (alphabetTraits a).SYMBOL_COUNT) :
    from_string a (to_string a symbols) = symbols := by
  simp only [from_string, to_string, List.map_map]
  have step : ∀ v ∈ symbols, (from_char a ∘ to_char a) v = id v := by
    intro v hv
    exact from_to_char_of_lt a v (h v hv)
  rw [List.map_congr_left step, List.map_id]

/-- Witness for C6 at alphabet DNA with symbols [0,1,2,3,0]. -/
theorem C6_witness :
    (∀ v ∈ [0, 1, 2, 3, 0], v < (alphabetTraits Alphabet.DNA).SYMBOL_COUNT) ∧
      from_string Alphabet.DNA (to_string Alphabet.DNA [0, 1, 2, 3, 0]) = [0, 1, 2, 3, 0] :=
  ⟨by decide, C6_to_string_from_string_roundtrip Alphabet.DNA [0, 1, 2, 3, 0] (by decide)⟩

/-- C7: on a NUL-terminated buffer, the null-terminated decode-range
decodes exactly the characters before the first NUL terminator — one
symbol code per such character — and the number of symbols written equals
the offset of the terminator. -/
theorem C7_from_string_nullterm_stops_at_terminator (a : Alphabet) (buf : List Char)
    (h : Char.ofNat 0 ∈ buf) :
    from_string_nullterm a buf =
        (buf.take (buf.findIdx (fun c => c == Char.ofNat 0))).map (from_char a) ∧
      (from_string_nullterm a buf).length =
        buf.findIdx (fun c => c == Char.ofNat 0) := by
  have hidx : buf.findIdx (fun c => c == Char.ofNat 0) < buf.length :=
    List.findIdx_lt_length_of_exists ⟨Char.ofNat 0, h, by simp⟩
  have htw : from_string_nullterm a buf =
      (buf.take (buf.findIdx (fun c => c == Char.ofNat 0))).map (from_char a) := by
    simp only [from_string_nullterm, from_string]
    rw [show (fun c => c != Char.ofNat 0) = (fun c => !(c == Char.ofNat 0)) from rfl,
      takeWhile_not_eq_take_findIdx]
  refine ⟨htw, ?_⟩
  rw [htw, List.length_map, List.length_take]
  omega

/-- Witness for C7 on the buffer ['A','C',NUL,'G'] with alphabet DNA. -/
theorem C7_witness :
    Char.ofNat 0 ∈ ['A', 'C', Char.ofNat 0, 'G'] ∧
      (from_string_nullterm Alphabet.DNA ['A', 'C', Char.ofNat 0, 'G'] =
          ((['A', 'C', Char.ofNat 0, 'G'].take
            (['A', 'C', Char.ofNat 0, 'G'].findIdx (fun c => c == Char.ofNat 0))).map
              (from_char Alphabet.DNA)) ∧
        (from_string_nullterm Alphabet.DNA ['A', 'C', Char.ofNat 0, 'G']).length =
          ['A', 'C', Char.ofNat 0, 'G'].findIdx (fun c => c == Char.ofNat 0)) :=
  ⟨by decide,
    C7_from_string_nullterm_stops_at_terminator Alphabet.DNA
      ['A', 'C', Char.ofNat 0, 'G'] (by decide)⟩

/-- C8: dereferencing the lazy character adaptor `to_string(it)` at
position `i` yields `to_char<k>` applied to the i-th underlying symbol,
and dereferencing `from_string(it)` at position `i` yields `from_char<k>`
applied to the i-th underlying character. -/
theorem C8_lazy_adaptor_deref (a : Alphabet) (it : Nat → Nat) (jt : Nat → Char) (i : Nat) :
    (to_string_iter a it).deref i = to_char a (it i) ∧
      (from_string_iter a jt).deref i = from_char a (jt i) :=
  ⟨rfl, rfl⟩

/-- C9 counterexample: for DNA_N the declared SYMBOL_SIZE is 4, while the
minimal width ceil(log2(SYMBOL_COUNT)) = ceil(log2 5) = 3, so the claim
that SYMBOL_SIZE equals ceil(log2(SYMBOL_COUNT)) fails at DNA_N. -/
theorem C9_counterexample :
    (alphabetTraits Alphabet.DNA_N).SYMBOL_SIZE ≠
      Nat.clog 2 (alphabetTraits Alphabet.DNA_N).SYMBOL_COUNT := by
  have h1 : Nat.clog 2 5 ≤ 3 :=
    (Nat.le_pow_iff_clog_le (by norm_num)).mp (by norm_num)
  have h2 : 2 < Nat.clog 2 5 :=
    (Nat.pow_lt_iff_lt_clog (by norm_num)).mp (by norm_num)
  simp only [alphabetTraits]
  omega

/-- C9 (amended): for every alphabet `k` the declared SYMBOL_SIZE is
sufficient to represent all SYMBOL_COUNT(k) symbol codes —
ceil(log2(SYMBOL_COUNT(k))) ≤ SYMBOL_SIZE(k) — though it is not the
minimal such width for DNA_N and PROTEIN. -/
theorem C9_clog_le_SYMBOL_SIZE :
    ∀ k : Alphabet,
      Nat.clog 2 (alphabetTraits k).SYMBOL_COUNT ≤ (alphabetTraits k).SYMBOL_SIZE := by
  intro k
  cases k <;> simp only [alphabetTraits] <;>
    exact (Nat.le_pow_iff_clog_le (by norm_num)).mp (by norm_num)

/-- C10: for every alphabet `k`, SYMBOL_COUNT(k) ≤ 2 ^ SYMBOL_SIZE(k), so
every valid symbol code fits in the declared bit width. -/
theorem C10_SYMBOL_COUNT_le_pow :
    ∀ k : Alphabet,
      (alphabetTraits k).SYMBOL_COUNT ≤ 2 ^ (alphabetTraits k).SYMBOL_SIZE := by
  decide

end nvbio

